import Mathlib

/-!
Verification development for the `collecte` PDF download-and-ledger tool
(`src/collecte/pdf_downloader.py` and its caller `src/collecte/app.py`).

Strings are modelled as lists of characters (`Str`), and the Python string
primitives the source uses (`in`, `split`, `strip`, `lower`, `replace`,
`os.path.basename`, and the `urllib.parse.urlparse` fields `netloc` / `path`
for absolute URLs) are given executable definitions below.  The network,
Dropbox and pandas collaborators are abstracted into an `Env` of oracle
functions plus an explicit event trace, and the control flow of
`find_and_download_pdfs` / `_search_and_download` / `_download_pdf_to_dropbox`
/ `_extract_original_filename` is translated statement by statement.
-/

abbrev Str := List Char

/-- Python `pat in s` (substring containment) on character lists. -/
def containsSub (pat : Str) : Str → Bool
  | [] => pat.isEmpty
  | c :: rest => pat.isPrefixOf (c :: rest) || containsSub pat rest

/-- The suffix of `s` that follows the first occurrence of `sep`;
`[]` when `sep` does not occur. -/
def afterFirst (sep : Str) : Str → Str
  | [] => []
  | c :: rest =>
    if sep.isPrefixOf (c :: rest) then List.drop sep.length (c :: rest)
    else afterFirst sep rest

/-- The prefix of `s` before the first occurrence of `sep`;
all of `s` when `sep` does not occur. -/
def upToFirst (sep : Str) : Str → Str
  | [] => []
  | c :: rest =>
    if sep.isPrefixOf (c :: rest) then []
    else c :: upToFirst sep rest

/-- Fuel-indexed worker for `splitOn` (Python `s.split(sep)` with a
non-empty separator). -/
def splitOnFuel (fuel : Nat) (sep s : Str) : List Str :=
  match fuel with
  | 0 => [s]
  | Nat.succ f =>
    if containsSub sep s then upToFirst sep s :: splitOnFuel f sep (afterFirst sep s)
    else [s]

/-- Python `s.split(sep)` for a non-empty separator `sep`. -/
def splitOn (sep s : Str) : List Str := splitOnFuel (s.length + 1) sep s

/-- Python `s.lower()` (restricted to the ASCII lowering Lean's
`Char.toLower` performs, which covers every string the tool handles). -/
def toLowerStr (s : Str) : Str := s.map Char.toLower

/-- Characters Python's no-argument `str.strip()` removes. -/
def isPyWS (c : Char) : Bool :=
  c = ' ' || c = Char.ofNat 9 || c = Char.ofNat 10 || c = Char.ofNat 13 ||
  c = Char.ofNat 11 || c = Char.ofNat 12

/-- Remove the characters satisfying `p` from both ends
(Python `str.strip` with the corresponding character set). -/
def stripEnds (p : Char → Bool) (s : Str) : Str :=
  ((s.dropWhile p).reverse.dropWhile p).reverse

/-- Python `s.strip()`. -/
def pyStripWS (s : Str) : Str := stripEnds isPyWS s

/-- The double-quote character. -/
def dquote : Char := Char.ofNat 34

/-- The single-quote character. -/
def squote : Char := Char.ofNat 39

/-- The character set of the source's `.strip('";\'')` call. -/
def quoteSemiChars : List Char := [dquote, ';', squote]

/-- The literal `"filename="` searched for in the Content-Disposition
header (`pdf_downloader.py` lines 209-213). -/
def fnEq : Str := "filename=".toList

/-- The cleanup pipeline the source applies to the text split off after
`filename=`: `.strip().strip('";\'')` then `.replace('"', '').replace("'", "")`
(`pdf_downloader.py` lines 215-217). -/
def cleanHint (p : Str) : Str :=
  ((stripEnds (fun c => quoteSemiChars.contains c) (pyStripWS p)).filter
      (fun c => !(c = dquote))).filter (fun c => !(c = squote))

/-- The scheme separator used to locate the authority part of an
absolute URL. -/
def schemeSep : Str := "://".toList

/-- Characters that terminate the netloc component in `urlparse`. -/
def isNetlocEnd (c : Char) : Bool := c = '/' || c = '?' || c = '#'

/-- Model of `urllib.parse.urlparse(url).netloc` for the absolute
http(s) URLs the search API returns: the text between `"://"` and the
first `/`, `?` or `#`; empty when no scheme separator is present. -/
def netlocOf (url : Str) : Str :=
  if containsSub schemeSep url then
    (afterFirst schemeSep url).takeWhile (fun c => !(isNetlocEnd c))
  else []

/-- Model of `urllib.parse.urlparse(url).path` for the same URL class:
drop scheme and netloc, stop before the query or fragment. -/
def pyUrlPath (url : Str) : Str :=
  if containsSub schemeSep url then
    ((afterFirst schemeSep url).dropWhile (fun c => !(isNetlocEnd c))).takeWhile
      (fun c => !(c = '?' || c = '#'))
  else url.takeWhile (fun c => !(c = '?' || c = '#'))

/-- Model of `os.path.basename`: the text after the last `/`. -/
def basenameOf (p : Str) : Str :=
  (p.reverse.takeWhile (fun c => !(c = '/'))).reverse

/-- The source's trailing `filename.split("?")[0].split("#")[0]`
(`pdf_downloader.py` line 229). -/
def stripQF (s : Str) : Str :=
  (s.takeWhile (fun c => !(c = '?'))).takeWhile (fun c => !(c = '#'))

/-- The fallback literal of `pdf_downloader.py` line 227. -/
def unknownPdf : Str := "unknown.pdf".toList

/-- URL fallback of `_extract_original_filename` (lines 223-231):
basename of the parsed path, `"unknown.pdf"` when empty, then strip a
query string or fragment remnant. -/
def url_fallback_filename (url : Str) : Str :=
  stripQF (if (basenameOf (pyUrlPath url)).isEmpty then unknownPdf
           else basenameOf (pyUrlPath url))

/-- Translation of `_extract_original_filename(response, pdf_url)`
(`pdf_downloader.py` lines 203-231).  The header check lowercases the
header before the containment test but splits the original header, so a
mixed-case `FILENAME=` hint falls through to the URL fallback exactly as
in the source. -/
def extract_original_filename (content_disp pdf_url : Str) : Str :=
  if containsSub fnEq (toLowerStr content_disp) then
    match splitOn fnEq content_disp with
    | _ :: p :: _ => cleanHint p
    | _ => url_fallback_filename pdf_url
  else url_fallback_filename pdf_url

/-- Filename resolution as the specification words it (spec §4.2): first
the hint following the `filename=` prefix in the header, cleaned up;
otherwise the final path segment of the URL with query string and
fragment stripped; otherwise the literal `"unknown.pdf"` when that
segment is empty. -/
def spec_filename_resolution (content_disp pdf_url : Str) : Str :=
  if containsSub fnEq content_disp then cleanHint (afterFirst fnEq content_disp)
  else
    if (stripQF (basenameOf (pyUrlPath pdf_url))).isEmpty then unknownPdf
    else stripQF (basenameOf (pyUrlPath pdf_url))

example : extract_original_filename [] ("https://x.com/reports/abc.pdf?x=1".toList) =
    "abc.pdf".toList := by decide

example : extract_original_filename [] ("https://x.com/".toList) =
    "unknown.pdf".toList := by decide

example : extract_original_filename ("attachment; filename=ex.pdf".toList)
    ("https://x.com/a.pdf".toList) = "ex.pdf".toList := by decide

/-- One row of the metadata ledger, with exactly the columns the source
creates (`pdf_downloader.py` lines 160-163 and 251): `company`, `year`,
`url`, `filename`.  There is no `status`, `scope` or `query` column. -/
structure Row where
  company : Str
  year : Str
  url : Str
  filename : Str
deriving DecidableEq, Repr

/-- Python exceptions the translated code can raise. -/
inductive PyError where
  | indexError
  | typeError
deriving DecidableEq, Repr

/-- Observable side effects of a run, in program order. -/
inductive Event where
  | loadMetadata
  | searchCall (query : Str) (start : Nat)
  | fetchAttempt (url : Str)
  | upload (path : Str)
  | saveMetadata (rows : List Row)
deriving DecidableEq, Repr

/-- External collaborators: the Google CSE search endpoint (by query and
1-based start offset; `none` models a transport/HTTP error, `some []`
an empty `items` array), the PDF fetch (`some header` is a successful
response carrying its Content-Disposition header, `""` for an absent
header; `none` a download failure), and the metadata ledger Dropbox
holds at run start. -/
structure Env where
  search : Str → Nat → Option (List Str)
  fetch : Str → Option Str
  metadata0 : List Row

/-- Mutable locals of `_search_and_download`: the (reassigned!) `company`
variable and the in-memory `metadata_df`. -/
structure LoopState where
  company : Str
  metadata : List Row
deriving DecidableEq, Repr

/-- Dropbox destination `f"/CbCRs/{company}/{original_filename}"`
(`pdf_downloader.py` line 191; the `safe_company` / `file_name` locals
of lines 189-190 are computed but never used). -/
def dropbox_pdf_path (company fn : Str) : Str :=
  "/CbCRs/".toList ++ company ++ "/".toList ++ fn

/-- Translation of `_download_pdf_to_dropbox(pdf_url, company, year)`
(`pdf_downloader.py` lines 169-201): fetch the URL (returning `None` and
only a fetch event on failure), resolve the filename, attempt the Dropbox
upload (an upload failure is caught and logged, so it affects neither the
returned filename nor control flow), and return the resolved filename.
The `year` argument is used only in the dead `file_name` local. -/
def download_pdf_to_dropbox (env : Env) (pdf_url company year : Str) :
    Option Str × List Event :=
  match env.fetch pdf_url with
  | none => (none, [Event.fetchAttempt pdf_url])
  | some cd =>
    (some (extract_original_filename cd pdf_url),
     [Event.fetchAttempt pdf_url,
      Event.upload (dropbox_pdf_path company (extract_original_filename cd pdf_url))])

/-- The `company` reassignment of `pdf_downloader.py` line 154:
`urlparse(link).netloc.split(".")[1]`.  The Python index `[1]` raises
`IndexError` when the host has fewer than two dot-separated labels. -/
def host_label_1 (link : Str) : Option Str :=
  (splitOn (".".toList) (netlocOf link)).get? 1

/-- Second-to-last label of the URL host, as the specification words the
effective target label (spec §4.3 step e and glossary). -/
def spec_second_to_last_label (link : Str) : Option Str :=
  (splitOn (".".toList) (netlocOf link)).get?
    ((splitOn (".".toList) (netlocOf link)).length - 2)

/-- Processing of one search-result item, `pdf_downloader.py` lines
137-165: blacklist filter, optional company-name restriction (against
the *current* `company` variable), ledger dedup, reassignment of
`company` from the URL host, a first `_download_pdf_to_dropbox` call
whose result decides the ledger append, and a second, result-discarded
`_download_pdf_to_dropbox` call (line 165). -/
def process_item (env : Env) (blacklist_urls : List Str) (restrict_url : Bool)
    (year : Str) (st : LoopState) (link : Str) :
    List Event × Except PyError LoopState :=
  if blacklist_urls.any (fun b => containsSub (toLowerStr b) (toLowerStr link)) then
    ([], Except.ok st)
  else if restrict_url && !(containsSub (toLowerStr st.company) (toLowerStr link)) then
    ([], Except.ok st)
  else if st.metadata.any (fun row => decide (row.url = link)) then
    ([], Except.ok st)
  else
    match host_label_1 link with
    | none => ([], Except.error PyError.indexError)
    | some lab =>
      ((download_pdf_to_dropbox env link lab year).2 ++
         (download_pdf_to_dropbox env link lab year).2,
       Except.ok ⟨lab,
         match (download_pdf_to_dropbox env link lab year).1 with
         | some fn => st.metadata ++ [Row.mk lab year link fn]
         | none => st.metadata⟩)

/-- Sequencing of traced computations with Python exception semantics:
run `a`; on an uncaught exception propagate it with the events emitted so
far, otherwise continue with `k` and concatenate the events. -/
def seqE {α β : Type} (a : List Event × Except PyError α)
    (k : α → List Event × Except PyError β) : List Event × Except PyError β :=
  match a.2 with
  | Except.error e => (a.1, Except.error e)
  | Except.ok x => (a.1 ++ (k x).1, (k x).2)

/-- Prepend one event to a traced computation. -/
def consTrace {α : Type} (e : Event) (a : List Event × Except PyError α) :
    List Event × Except PyError α :=
  (e :: a.1, a.2)

/-- `seqE` on a normal result. -/
theorem seqE_ok {α β : Type} (tr : List Event) (x : α)
    (k : α → List Event × Except PyError β) :
    seqE (tr, Except.ok x) k = (tr ++ (k x).1, (k x).2) := rfl

/-- `seqE` on an exception. -/
theorem seqE_error {α β : Type} (tr : List Event) (e : PyError)
    (k : α → List Event × Except PyError β) :
    seqE (tr, Except.error e) k = (tr, Except.error e) := rfl

/-- The `for item in items` loop over one result page, threading the
loop state and propagating an uncaught exception. -/
def process_items (env : Env) (blacklist_urls : List Str) (restrict_url : Bool)
    (year : Str) (st : LoopState) : List Str → List Event × Except PyError LoopState
  | [] => ([], Except.ok st)
  | link :: links =>
    seqE (process_item env blacklist_urls restrict_url year st link)
      (fun st1 => process_items env blacklist_urls restrict_url year st1 links)

/-- The page offsets `range(1, 100, 10)` of `pdf_downloader.py` line 114. -/
def starts10 : List Nat := [1, 11, 21, 31, 41, 51, 61, 71, 81, 91]

/-- The pagination loop (`pdf_downloader.py` lines 114-165): one search
request per offset; a transport error or an empty `items` array breaks
out of pagination for this query only. -/
def process_pages (env : Env) (query : Str) (blacklist_urls : List Str)
    (restrict_url : Bool) (year : Str) (st : LoopState) :
    List Nat → List Event × Except PyError LoopState
  | [] => ([], Except.ok st)
  | start :: more =>
    match env.search query start with
    | none => ([Event.searchCall query start], Except.ok st)
    | some [] => ([Event.searchCall query start], Except.ok st)
    | some items =>
      consTrace (Event.searchCall query start)
        (seqE (process_items env blacklist_urls restrict_url year st items)
          (fun st1 => process_pages env query blacklist_urls restrict_url year st1 more))

/-- Query composition of `pdf_downloader.py` line 110, built from the
*current* `company` variable. -/
def mkQuery (company keywords year : Str) : Str :=
  company ++ " ".toList ++ keywords ++ " ".toList ++ year ++ " filetype:pdf".toList

/-- One iteration of the `for year in years` loop (`pdf_downloader.py`
lines 108-167): build the query from the current `company`, paginate,
then persist the full in-memory ledger once, after the pagination loop
(line 167 sits inside the year loop, outside the page loop).  An
uncaught exception skips the save. -/
def process_year (env : Env) (keywords : Str) (blacklist_urls : List Str)
    (restrict_url : Bool) (st : LoopState) (year : Str) :
    List Event × Except PyError LoopState :=
  seqE (process_pages env (mkQuery st.company keywords year) blacklist_urls
      restrict_url year st starts10)
    (fun st1 => ([Event.saveMetadata st1.metadata], Except.ok st1))

/-- The year loop of `_search_and_download`. -/
def search_years_loop (env : Env) (keywords : Str) (blacklist_urls : List Str)
    (restrict_url : Bool) (st : LoopState) :
    List Str → List Event × Except PyError LoopState
  | [] => ([], Except.ok st)
  | y :: ys =>
    seqE (process_year env keywords blacklist_urls restrict_url st y)
      (fun st1 => search_years_loop env keywords blacklist_urls restrict_url st1 ys)

/-- Translation of `_search_and_download(company, ..., metadata_df)`
(`pdf_downloader.py` lines 82-167).  The `api_key`, `cse_id`,
`fetch_timeout_s` and `date_restrict` parameters only shape the HTTP
request and are absorbed into `env.search`. -/
def search_and_download (env : Env) (company keywords : Str) (years : List Str)
    (blacklist_urls : List Str) (restrict_url : Bool) (metadata_df : List Row) :
    List Event × Except PyError LoopState :=
  search_years_loop env keywords blacklist_urls restrict_url
    ⟨company, metadata_df⟩ years

/-- Parameter names of `_search_and_download` (lines 82-93); none has a
default value, so Python requires every one of them at each call. -/
def search_and_download_params : List String :=
  ["company", "api_key", "cse_id", "keywords", "years", "fetch_timeout_s",
   "date_restrict", "blacklist_urls", "restrict_url", "metadata_df"]

/-- Keyword arguments of the batch-mode call to `_search_and_download`
(`pdf_downloader.py` lines 51-61). -/
def batch_call_kwargs : List String :=
  ["company", "api_key", "cse_id", "keywords", "years", "fetch_timeout_s",
   "date_restrict", "blacklist_urls", "restrict_url"]

/-- Keyword arguments of the single-company call to `_search_and_download`
(`pdf_downloader.py` lines 68-79). -/
def single_call_kwargs : List String :=
  ["company", "api_key", "cse_id", "keywords", "years", "fetch_timeout_s",
   "date_restrict", "blacklist_urls", "restrict_url", "metadata_df"]

/-- Parameter names of `find_and_download_pdfs` (lines 14-25); no
defaults. -/
def find_and_download_pdfs_params : List String :=
  ["csv_df", "company_name", "api_key", "cse_id", "keywords", "years",
   "fetch_timeout_s", "date_restrict", "blacklist_urls", "restrict_url"]

/-- Keyword arguments `app.py` lines 148-161 pass to
`find_and_download_pdfs` when the Start button launches the worker
thread. -/
def app_start_download_kwargs : List String :=
  ["csv_df", "company_name", "api_key", "cse_id", "keywords", "years",
   "fetch_timeout_s", "date_restrict", "blacklist_urls", "restrict_url",
   "stop_event", "subfolder"]

/-- Python keyword-argument binding for a signature without defaults:
the call succeeds iff every parameter receives an argument and every
keyword names a parameter; otherwise the interpreter raises `TypeError`
before the callee body runs. -/
def bindOk (params kwargs : List String) : Bool :=
  params.all (fun p => kwargs.contains p) && kwargs.all (fun k => params.contains k)

/-- The batch branch of `find_and_download_pdfs` (lines 45-61): iterate
CSV company names, skip blank ones, and call `_search_and_download` with
the keyword set of lines 51-61 — which omits the required `metadata_df`
parameter, so the call raises `TypeError` before searching (the guarded
branch below is therefore unreachable; it is written as if `metadata_df`
had been bound to the loaded ledger, mirroring the single-company call). -/
def batch_rows_loop (env : Env) (keywords : Str) (years : List Str)
    (blacklist_urls : List Str) (restrict_url : Bool) :
    List Str → List Event × Except PyError Unit
  | [] => ([], Except.ok ())
  | name :: rest =>
    if (pyStripWS name).isEmpty then
      batch_rows_loop env keywords years blacklist_urls restrict_url rest
    else
      if bindOk search_and_download_params batch_call_kwargs then
        seqE (search_and_download env (pyStripWS name) keywords years
            blacklist_urls restrict_url env.metadata0)
          (fun _ => batch_rows_loop env keywords years blacklist_urls restrict_url rest)
      else ([], Except.error PyError.typeError)

/-- Translation of `find_and_download_pdfs` (`pdf_downloader.py` lines
14-79): the metadata ledger is loaded from Dropbox first (line 41,
before any input validation), then either the CSV batch branch runs or,
lacking both a CSV and a company name, the function logs an error and
returns normally (lines 64-66). -/
def find_and_download_pdfs (env : Env) (csv_df : Option (List Str))
    (company_name : Str) (keywords : Str) (years : List Str)
    (blacklist_urls : List Str) (restrict_url : Bool) :
    List Event × Except PyError Unit :=
  match csv_df with
  | some rows =>
    consTrace Event.loadMetadata
      (batch_rows_loop env keywords years blacklist_urls restrict_url rows)
  | none =>
    if company_name.isEmpty then ([Event.loadMetadata], Except.ok ())
    else
      if bindOk search_and_download_params single_call_kwargs then
        consTrace Event.loadMetadata
          (seqE (search_and_download env company_name keywords years blacklist_urls
              restrict_url env.metadata0)
            (fun _ => ([], Except.ok ())))
      else ([Event.loadMetadata], Except.error PyError.typeError)

/-- Events that touch the remote (Dropbox) store. -/
def isRemoteStoreEvent : Event → Bool
  | Event.loadMetadata => true
  | Event.upload _ => true
  | Event.saveMetadata _ => true
  | _ => false

/-- Events that are search or fetch network activity. -/
def isSearchOrFetchEvent : Event → Bool
  | Event.searchCall _ _ => true
  | Event.fetchAttempt _ => true
  | _ => false

/-- Ledger persistence events. -/
def isSaveEvent : Event → Bool
  | Event.saveMetadata _ => true
  | _ => false

/-- Number of ledger persistence events in a trace. -/
def countSaves (tr : List Event) : Nat := (tr.filter isSaveEvent).length

/-- The url column of a ledger. -/
def urlsOf (md : List Row) : List Str := md.map (fun row => row.url)

/-- Extract the final state of a loop result, for decidable statements. -/
def resState (r : Except PyError LoopState) : Option LoopState :=
  match r with
  | Except.ok st => some st
  | Except.error _ => none

/-- Extract the raised exception, if any, of a unit-valued run. -/
def resErr (r : Except PyError Unit) : Option PyError :=
  match r with
  | Except.ok _ => none
  | Except.error e => some e

/-- A mapped prefix is a prefix of the mapped list. -/
theorem isPrefixOf_map (f : Char → Char) :
    ∀ pat s : Str, pat.isPrefixOf s = true → (pat.map f).isPrefixOf (s.map f) = true := by
  intro pat
  induction pat with
  | nil => intro s _; simp [List.isPrefixOf]
  | cons a as ih =>
    intro s hp
    cases s with
    | nil => simp [List.isPrefixOf] at hp
    | cons b bs =>
      simp only [List.isPrefixOf, Bool.and_eq_true, beq_iff_eq, List.map_cons] at hp ⊢
      exact ⟨by rw [hp.1], ih bs hp.2⟩

/-- Substring containment is preserved by mapping both strings. -/
theorem containsSub_map (f : Char → Char) :
    ∀ s pat : Str, containsSub pat s = true → containsSub (pat.map f) (s.map f) = true := by
  intro s
  induction s with
  | nil =>
    intro pat h
    simp only [containsSub] at h
    rw [List.isEmpty_iff] at h
    subst h
    rfl
  | cons c rest ih =>
    intro pat h
    simp only [containsSub, Bool.or_eq_true] at h ⊢
    cases h with
    | inl hp => exact Or.inl (isPrefixOf_map f pat (c :: rest) hp)
    | inr hr => exact Or.inr (ih pat hr)

/-- Exact `filename=` containment implies containment in the lowercased
header. -/
theorem containsSub_fnEq_lower {cd : Str} (h : containsSub fnEq cd = true) :
    containsSub fnEq (toLowerStr cd) = true := by
  have hm := containsSub_map Char.toLower cd fnEq h
  rwa [show fnEq.map Char.toLower = fnEq from by decide] at hm

/-- The suffix after a first occurrence is strictly shorter (for a
non-empty separator and non-empty string). -/
theorem afterFirst_length_lt (sep : Str) (hsep : sep ≠ []) :
    ∀ s : Str, s ≠ [] → (afterFirst sep s).length < s.length := by
  intro s
  induction s with
  | nil => intro h; exact absurd rfl h
  | cons c rest ih =>
    intro _
    unfold afterFirst
    by_cases hp : sep.isPrefixOf (c :: rest) = true
    · have hl : 0 < sep.length := List.length_pos.mpr hsep
      simp only [hp, if_true, List.length_drop, List.length_cons]
      omega
    · simp only [hp, if_false, Bool.false_eq_true, ite_false]
      cases rest with
      | nil => simp [afterFirst]
      | cons d ds =>
        exact Nat.lt_trans (ih (by simp)) (by simp)

/-- One unfolding step of `splitOnFuel`. -/
theorem splitOnFuel_succ (f : Nat) (sep s : Str) :
    splitOnFuel (f + 1) sep s =
      if containsSub sep s then upToFirst sep s :: splitOnFuel f sep (afterFirst sep s)
      else [s] := rfl

/-- `splitOnFuel` is fuel-irrelevant once the fuel exceeds the string
length. -/
theorem splitOnFuel_eq (sep : Str) (hsep : sep ≠ []) :
    ∀ f1 : Nat, ∀ s : Str, ∀ f2 : Nat, s.length < f1 → s.length < f2 →
      splitOnFuel f1 sep s = splitOnFuel f2 sep s := by
  intro f1
  induction f1 with
  | zero => intro s f2 h1 _; exact absurd h1 (Nat.not_lt_zero _)
  | succ g1 ih =>
    intro s f2 h1 h2
    cases f2 with
    | zero => exact absurd h2 (Nat.not_lt_zero _)
    | succ g2 =>
      by_cases hc : containsSub sep s = true
      · have hs : s ≠ [] := by
          intro he
          subst he
          simp [containsSub, List.isEmpty_iff, hsep] at hc
        have hlt : (afterFirst sep s).length < s.length :=
          afterFirst_length_lt sep hsep s hs
        rw [splitOnFuel_succ, splitOnFuel_succ, if_pos hc, if_pos hc]
        rw [ih (afterFirst sep s) g2 (by omega) (by omega)]
      · rw [splitOnFuel_succ, splitOnFuel_succ, if_neg hc, if_neg hc]

/-- `splitOn` on a string not containing the separator. -/
theorem splitOn_not_contains {sep s : Str} (h : containsSub sep s = false) :
    splitOn sep s = [s] := by
  rw [splitOn, splitOnFuel_succ, if_neg (by simp [h])]

/-- `splitOn` unfolding at a string containing the separator. -/
theorem splitOn_contains {sep s : Str} (hsep : sep ≠ [])
    (h : containsSub sep s = true) :
    splitOn sep s = upToFirst sep s :: splitOn sep (afterFirst sep s) := by
  have hs : s ≠ [] := by
    intro he
    subst he
    simp [containsSub, List.isEmpty_iff, hsep] at h
  have hlt : (afterFirst sep s).length < s.length :=
    afterFirst_length_lt sep hsep s hs
  rw [splitOn, splitOnFuel_succ, if_pos h]
  rw [show splitOn sep (afterFirst sep s) =
      splitOnFuel ((afterFirst sep s).length + 1) sep (afterFirst sep s) from rfl]
  rw [splitOnFuel_eq sep hsep s.length (afterFirst sep s)
    ((afterFirst sep s).length + 1) hlt (by omega)]

/-- Members of a `takeWhile` satisfy the predicate. -/
theorem mem_tw {p : Char → Bool} : ∀ s : Str, ∀ c, c ∈ s.takeWhile p → p c = true := by
  intro s
  induction s with
  | nil => intro c h; simp [List.takeWhile] at h
  | cons a rest ih =>
    intro c h
    by_cases hp : p a = true
    · rw [List.takeWhile_cons, if_pos hp] at h
      cases h with
      | head => exact hp
      | tail _ hm => exact ih c hm
    · rw [List.takeWhile_cons, if_neg hp] at h
      simp at h

/-- Members of a `takeWhile` are members of the list. -/
theorem mem_of_mem_tw {p : Char → Bool} : ∀ s : Str, ∀ c, c ∈ s.takeWhile p → c ∈ s := by
  intro s
  induction s with
  | nil => intro c h; simp [List.takeWhile] at h
  | cons a rest ih =>
    intro c h
    by_cases hp : p a = true
    · rw [List.takeWhile_cons, if_pos hp] at h
      cases h with
      | head => exact List.mem_cons_self a rest
      | tail _ hm => exact List.mem_cons_of_mem a (ih c hm)
    · rw [List.takeWhile_cons, if_neg hp] at h
      simp at h

/-- `takeWhile` keeps a list all of whose members satisfy the predicate. -/
theorem tw_all {p : Char → Bool} : ∀ s : Str, (∀ c ∈ s, p c = true) → s.takeWhile p = s := by
  intro s
  induction s with
  | nil => intro _; rfl
  | cons a rest ih =>
    intro h
    rw [List.takeWhile_cons, if_pos (h a (List.mem_cons_self a rest))]
    rw [ih (fun c hc => h c (List.mem_cons_of_mem a hc))]

/-- Every character of the parsed URL path avoids `?` and `#`. -/
theorem pyUrlPath_no_qf (url : Str) :
    ∀ c ∈ pyUrlPath url, (!(c = '?' || c = '#')) = true := by
  intro c hc
  unfold pyUrlPath at hc
  by_cases h : containsSub schemeSep url = true
  · rw [if_pos h] at hc
    exact mem_tw _ c hc
  · rw [if_neg h] at hc
    exact mem_tw _ c hc

/-- Characters of a basename come from the string itself. -/
theorem mem_of_mem_basename (p : Str) : ∀ c ∈ basenameOf p, c ∈ p := by
  intro c hc
  unfold basenameOf at hc
  rw [List.mem_reverse] at hc
  have := mem_of_mem_tw _ c hc
  rwa [List.mem_reverse] at this

/-- `stripQF` is the identity on strings without `?` or `#`. -/
theorem stripQF_eq_self {s : Str} (h : ∀ c ∈ s, (!(c = '?' || c = '#')) = true) :
    stripQF s = s := by
  unfold stripQF
  have h1 : ∀ c ∈ s, (!(c = '?')) = true := by
    intro c hc
    have := h c hc
    simp only [Bool.not_eq_true', Bool.or_eq_false_iff] at this
    simp [this.1]
  rw [tw_all s h1]
  have h2 : ∀ c ∈ s, (!(c = '#')) = true := by
    intro c hc
    have := h c hc
    simp only [Bool.not_eq_true', Bool.or_eq_false_iff] at this
    simp [this.2]
  exact tw_all s h2

/-- The source's URL fallback equals the specification's wording of it:
final path segment with query/fragment stripped, or `"unknown.pdf"` when
that segment is empty. -/
theorem url_fallback_eq_spec (url : Str) :
    url_fallback_filename url =
      (if (stripQF (basenameOf (pyUrlPath url))).isEmpty then unknownPdf
       else stripQF (basenameOf (pyUrlPath url))) := by
  have hself : stripQF (basenameOf (pyUrlPath url)) = basenameOf (pyUrlPath url) :=
    stripQF_eq_self (fun c hc => pyUrlPath_no_qf url c (mem_of_mem_basename _ c hc))
  unfold url_fallback_filename
  by_cases he : (basenameOf (pyUrlPath url)).isEmpty = true
  · rw [if_pos he]
    rw [hself, if_pos he]
    decide
  · rw [if_neg he, hself, if_neg he]

/-- C7: for every fetch response and URL, the resolved filename follows
the priority (1) the `filename=` hint of the content-disposition header,
cleaned of surrounding quote characters; (2) otherwise the final path
segment of the URL with query string and fragment stripped; (3) otherwise
the literal `"unknown.pdf"` when that segment is empty — stated as the
equality of `_extract_original_filename` with the specification's
resolution function (for headers carrying at most one `filename=`
occurrence), together with the claim's two concrete examples:
`https://x.com/reports/abc.pdf?x=1` with no header gives `abc.pdf` and
`https://x.com/` gives `unknown.pdf`. -/
theorem C7_filename_resolution_priority (content_disp pdf_url : Str)
    (h : containsSub fnEq (afterFirst fnEq content_disp) = false) :
    extract_original_filename content_disp pdf_url =
      spec_filename_resolution content_disp pdf_url
    ∧ extract_original_filename [] ("https://x.com/reports/abc.pdf?x=1".toList) =
        "abc.pdf".toList
    ∧ extract_original_filename [] ("https://x.com/".toList) = "unknown.pdf".toList := by
  refine ⟨?_, by decide, by decide⟩
  unfold extract_original_filename spec_filename_resolution
  by_cases hc : containsSub fnEq content_disp = true
  · rw [if_pos (containsSub_fnEq_lower hc), if_pos hc]
    rw [splitOn_contains (by decide) hc, splitOn_not_contains h]
  · have hc' : containsSub fnEq content_disp = false := eq_false_of_ne_true hc
    rw [if_neg hc]
    by_cases hlow : containsSub fnEq (toLowerStr content_disp) = true
    · rw [if_pos hlow, splitOn_not_contains hc']
      exact url_fallback_eq_spec pdf_url
    · rw [if_neg hlow]
      exact url_fallback_eq_spec pdf_url

/-- Witness for C7 at a concrete header and URL. -/
theorem C7_filename_resolution_priority_witness :
    containsSub fnEq (afterFirst fnEq ("attachment; filename=ex.pdf".toList)) = false
    ∧ extract_original_filename ("attachment; filename=ex.pdf".toList)
        ("https://y.org/z.pdf".toList) =
      spec_filename_resolution ("attachment; filename=ex.pdf".toList)
        ("https://y.org/z.pdf".toList) :=
  ⟨by decide,
   (C7_filename_resolution_priority ("attachment; filename=ex.pdf".toList)
     ("https://y.org/z.pdf".toList) (by decide)).1⟩

/-- The trace of one `_download_pdf_to_dropbox` call: a fetch attempt,
followed by an upload attempt when the fetch succeeded. -/
theorem download_trace (env : Env) (link lab y : Str) :
    (download_pdf_to_dropbox env link lab y).2 =
      match env.fetch link with
      | none => [Event.fetchAttempt link]
      | some cd =>
        [Event.fetchAttempt link,
         Event.upload (dropbox_pdf_path lab (extract_original_filename cd link))] := by
  cases hf : env.fetch link <;> simp [download_pdf_to_dropbox, hf]

/-- A download call emits no ledger persistence event. -/
theorem download_no_save (env : Env) (link lab y : Str) :
    countSaves (download_pdf_to_dropbox env link lab y).2 = 0 := by
  cases hf : env.fetch link <;>
    simp [download_pdf_to_dropbox, hf, countSaves, isSaveEvent]

/-- `countSaves` distributes over concatenation. -/
theorem countSaves_append (a b : List Event) :
    countSaves (a ++ b) = countSaves a + countSaves b := by
  simp [countSaves, List.filter_append]

/-- A trace with no persistence events contains no `saveMetadata`. -/
theorem not_mem_of_countSaves_zero {tr : List Event} (h : countSaves tr = 0)
    (rows : List Row) : Event.saveMetadata rows ∉ tr := by
  intro hm
  have : Event.saveMetadata rows ∈ tr.filter isSaveEvent :=
    List.mem_filter.mpr ⟨hm, rfl⟩
  have hpos : 0 < (tr.filter isSaveEvent).length := List.length_pos.mpr
    (fun he => by rw [he] at this; exact List.not_mem_nil _ this)
  rw [countSaves] at h
  omega

/-- Complete case analysis of `process_item`: the candidate is skipped
(by blacklist, name restriction or dedup), or the host-label lookup
raises `IndexError`, or the candidate is accepted and processed with two
download calls. -/
theorem process_item_cases (env : Env) (bl : List Str) (r : Bool) (y : Str)
    (st : LoopState) (link : Str) :
    process_item env bl r y st link = ([], Except.ok st)
    ∨ process_item env bl r y st link = ([], Except.error PyError.indexError)
    ∨ (∃ lab, host_label_1 link = some lab
        ∧ st.metadata.any (fun row => decide (row.url = link)) = false
        ∧ process_item env bl r y st link =
            ((download_pdf_to_dropbox env link lab y).2 ++
               (download_pdf_to_dropbox env link lab y).2,
             Except.ok ⟨lab,
               match (download_pdf_to_dropbox env link lab y).1 with
               | some fn => st.metadata ++ [Row.mk lab y link fn]
               | none => st.metadata⟩)) := by
  unfold process_item
  by_cases h1 : bl.any (fun b => containsSub (toLowerStr b) (toLowerStr link)) = true
  · rw [if_pos h1]; exact Or.inl rfl
  · rw [if_neg h1]
    by_cases h2 : (r && !(containsSub (toLowerStr st.company) (toLowerStr link))) = true
    · rw [if_pos h2]; exact Or.inl rfl
    · rw [if_neg h2]
      by_cases h3 : st.metadata.any (fun row => decide (row.url = link)) = true
      · rw [if_pos h3]; exact Or.inl rfl
      · rw [if_neg h3]
        cases hh : host_label_1 link with
        | none => exact Or.inr (Or.inl rfl)
        | some lab =>
          exact Or.inr (Or.inr ⟨lab, rfl, eq_false_of_ne_true h3, rfl⟩)

/-- An item step never persists the ledger. -/
theorem process_item_nosave (env : Env) (bl : List Str) (r : Bool) (y : Str)
    (st : LoopState) (link : Str) :
    countSaves (process_item env bl r y st link).1 = 0 := by
  rcases process_item_cases env bl r y st link with h | h | ⟨lab, _, _, h⟩ <;> rw [h]
  · rfl
  · rfl
  · simp [countSaves_append, download_no_save]

/-- An item step appends at most one row, and only a row whose url was
absent from the in-memory ledger; it therefore preserves distinctness of
the ledger's url column. -/
theorem process_item_nodup (env : Env) (bl : List Str) (r : Bool) (y : Str)
    (st : LoopState) (link : Str) (st' : LoopState)
    (hok : (process_item env bl r y st link).2 = Except.ok st')
    (hnd : (urlsOf st.metadata).Nodup) : (urlsOf st'.metadata).Nodup := by
  rcases process_item_cases env bl r y st link with h | h | ⟨lab, _, hany, h⟩ <;>
    rw [h] at hok
  · cases hok; exact hnd
  · simp at hok
  · have hnotmem : link ∉ urlsOf st.metadata := by
      intro hm
      rcases List.mem_map.mp hm with ⟨row, hrow, hurl⟩
      have : st.metadata.any (fun row => decide (row.url = link)) = true :=
        List.any_eq_true.mpr ⟨row, hrow, by simp [hurl]⟩
      rw [this] at hany
      exact Bool.true_eq_false.mp hany
    cases hd : (download_pdf_to_dropbox env link lab y).1 with
    | none =>
      simp only [hd] at hok
      cases hok
      exact hnd
    | some fn =>
      simp only [hd] at hok
      cases hok
      show (urlsOf (st.metadata ++ [Row.mk lab y link fn])).Nodup
      rw [urlsOf, List.map_append]
      rw [List.nodup_append]
      refine ⟨hnd, List.nodup_singleton _, ?_⟩
      intro a ha hb
      simp only [List.map_cons, List.map_nil, List.mem_singleton] at hb
      rw [hb] at ha
      exact hnotmem ha


/-- The items loop never persists the ledger and preserves distinctness
of the ledger's url column. -/
theorem process_items_facts (env : Env) (bl : List Str) (r : Bool) (y : Str) :
    ∀ links : List Str, ∀ st : LoopState,
      countSaves (process_items env bl r y st links).1 = 0
      ∧ ((urlsOf st.metadata).Nodup → ∀ st',
          (process_items env bl r y st links).2 = Except.ok st' →
          (urlsOf st'.metadata).Nodup) := by
  intro links
  induction links with
  | nil =>
    intro st
    refine ⟨rfl, ?_⟩
    intro hnd st' hok
    cases hok
    exact hnd
  | cons link links ih =>
    intro st
    rw [show process_items env bl r y st (link :: links) =
        seqE (process_item env bl r y st link)
          (fun st1 => process_items env bl r y st1 links) from rfl]
    cases hi : process_item env bl r y st link with
    | mk tr1 r1 =>
      have hsave1 : countSaves tr1 = 0 := by
        have := process_item_nosave env bl r y st link
        rw [hi] at this
        exact this
      cases r1 with
      | error e =>
        rw [seqE_error]
        refine ⟨hsave1, ?_⟩
        intro _ st' hok
        simp at hok
      | ok st1 =>
        rw [seqE_ok]
        refine ⟨?_, ?_⟩
        · rw [countSaves_append, hsave1, (ih st1).1]
        · intro hnd st' hok
          have hnd1 : (urlsOf st1.metadata).Nodup := by
            have := process_item_nodup env bl r y st link st1
            rw [hi] at this
            exact this rfl hnd
          exact (ih st1).2 hnd1 st' hok

/-- The pagination loop never persists the ledger and preserves
distinctness of the ledger's url column. -/
theorem process_pages_facts (env : Env) (query : Str) (bl : List Str)
    (r : Bool) (y : Str) :
    ∀ startsL : List Nat, ∀ st : LoopState,
      countSaves (process_pages env query bl r y st startsL).1 = 0
      ∧ ((urlsOf st.metadata).Nodup → ∀ st',
          (process_pages env query bl r y st startsL).2 = Except.ok st' →
          (urlsOf st'.metadata).Nodup) := by
  intro startsL
  induction startsL with
  | nil =>
    intro st
    refine ⟨rfl, ?_⟩
    intro hnd st' hok
    cases hok
    exact hnd
  | cons start more ih =>
    intro st
    cases hs : env.search query start with
    | none =>
      simp only [process_pages, hs]
      refine ⟨rfl, ?_⟩
      intro hnd st' hok
      cases hok
      exact hnd
    | some items =>
      cases items with
      | nil =>
        simp only [process_pages, hs]
        refine ⟨rfl, ?_⟩
        intro hnd st' hok
        cases hok
        exact hnd
      | cons l0 ls =>
        cases hitems : process_items env bl r y st (l0 :: ls) with
        | mk tr1 r1 =>
          have hif := process_items_facts env bl r y (l0 :: ls) st
          rw [hitems] at hif
          simp only [process_pages, hs, hitems]
          cases r1 with
          | error e =>
            rw [seqE_error]
            refine ⟨?_, ?_⟩
            · show countSaves ([Event.searchCall query start] ++ tr1) = 0
              rw [countSaves_append, hif.1]
              simp [countSaves, isSaveEvent]
            · intro _ st' hok
              simp [consTrace] at hok
          | ok st1 =>
            rw [seqE_ok]
            refine ⟨?_, ?_⟩
            · show countSaves ([Event.searchCall query start] ++
                (tr1 ++ (process_pages env query bl r y st1 more).1)) = 0
              rw [countSaves_append, countSaves_append, hif.1, (ih st1).1]
              simp [countSaves, isSaveEvent]
            · intro hnd st' hok
              have hok' : (process_pages env query bl r y st1 more).2 = Except.ok st' := hok
              exact (ih st1).2 (hif.2 hnd st1 rfl) st' hok'

/-- A successfully completed period persists exactly once, at the end,
with the final in-memory ledger; and all ledger snapshots a period
persists have a duplicate-free url column when the incoming ledger does. -/
theorem process_year_facts (env : Env) (kw : Str) (bl : List Str) (r : Bool)
    (st : LoopState) (y : Str) :
    (∀ st', (process_year env kw bl r st y).2 = Except.ok st' →
      countSaves (process_year env kw bl r st y).1 = 1
      ∧ (process_year env kw bl r st y).1.getLast? =
          some (Event.saveMetadata st'.metadata))
    ∧ ((urlsOf st.metadata).Nodup →
        (∀ rows, Event.saveMetadata rows ∈ (process_year env kw bl r st y).1 →
          (urlsOf rows).Nodup)
        ∧ (∀ st', (process_year env kw bl r st y).2 = Except.ok st' →
            (urlsOf st'.metadata).Nodup)) := by
  have hpf := process_pages_facts env (mkQuery st.company kw y) bl r y starts10 st
  unfold process_year
  cases hp : process_pages env (mkQuery st.company kw y) bl r y st starts10 with
  | mk trp rp =>
    rw [hp] at hpf
    cases rp with
    | error e =>
      rw [seqE_error]
      refine ⟨?_, ?_⟩
      · intro st' hok
        simp at hok
      · intro hnd
        refine ⟨?_, ?_⟩
        · intro rows hm
          exact absurd hm (not_mem_of_countSaves_zero hpf.1 rows)
        · intro st' hok
          simp at hok
    | ok st1 =>
      rw [seqE_ok]
      refine ⟨?_, ?_⟩
      · intro st' hok
        have hst : st1 = st' := by
          simpa using hok
        subst hst
        refine ⟨?_, ?_⟩
        · show countSaves (trp ++ [Event.saveMetadata st1.metadata]) = 0 + 1
          rw [countSaves_append, hpf.1]
          rfl
        · show (trp ++ [Event.saveMetadata st1.metadata]).getLast? = _
          rw [List.getLast?_concat]
      · intro hnd
        have hnd1 : (urlsOf st1.metadata).Nodup := hpf.2 hnd st1 rfl
        refine ⟨?_, ?_⟩
        · intro rows hm
          rcases List.mem_append.mp hm with hml | hmr
          · exact absurd hml (not_mem_of_countSaves_zero hpf.1 rows)
          · have : Event.saveMetadata rows = Event.saveMetadata st1.metadata := by
              simpa using hmr
            cases this
            exact hnd1
        · intro st' hok
          have hst : st1 = st' := by
            simpa using hok
          subst hst
          exact hnd1

/-- The year loop: every persisted ledger snapshot has a duplicate-free
url column, and so does the final in-memory ledger, whenever the initial
ledger does. -/
theorem search_years_loop_facts (env : Env) (kw : Str) (bl : List Str) (r : Bool) :
    ∀ years : List Str, ∀ st : LoopState, (urlsOf st.metadata).Nodup →
      (∀ rows, Event.saveMetadata rows ∈ (search_years_loop env kw bl r st years).1 →
        (urlsOf rows).Nodup)
      ∧ (∀ st', (search_years_loop env kw bl r st years).2 = Except.ok st' →
          (urlsOf st'.metadata).Nodup) := by
  intro years
  induction years with
  | nil =>
    intro st hnd
    refine ⟨?_, ?_⟩
    · intro rows hm
      simp [search_years_loop] at hm
    · intro st' hok
      cases hok
      exact hnd
  | cons y ys ih =>
    intro st hnd
    rw [show search_years_loop env kw bl r st (y :: ys) =
        seqE (process_year env kw bl r st y)
          (fun st1 => search_years_loop env kw bl r st1 ys) from rfl]
    have hyf := process_year_facts env kw bl r st y
    cases hy : process_year env kw bl r st y with
    | mk try_ ry =>
      rw [hy] at hyf
      cases ry with
      | error e =>
        rw [seqE_error]
        refine ⟨?_, ?_⟩
        · intro rows hm
          exact (hyf.2 hnd).1 rows hm
        · intro st' hok
          simp at hok
      | ok st1 =>
        rw [seqE_ok]
        have hnd1 : (urlsOf st1.metadata).Nodup := (hyf.2 hnd).2 st1 rfl
        refine ⟨?_, ?_⟩
        · intro rows hm
          rcases List.mem_append.mp hm with hml | hmr
          · exact (hyf.2 hnd).1 rows hml
          · exact (ih st1 hnd1).1 rows hmr
        · intro st' hok
          exact (ih st1 hnd1).2 st' hok

/-- A candidate whose url is already in the in-memory ledger is skipped:
no events, no state change. -/
theorem process_item_skip_dup (env : Env) (bl : List Str) (r : Bool) (y : Str)
    (st : LoopState) (link : Str) (h : link ∈ urlsOf st.metadata) :
    process_item env bl r y st link = ([], Except.ok st) := by
  have hany : st.metadata.any (fun row => decide (row.url = link)) = true := by
    rcases List.mem_map.mp h with ⟨row, hrow, hurl⟩
    exact List.any_eq_true.mpr ⟨row, hrow, by simp [hurl]⟩
  unfold process_item
  by_cases h1 : bl.any (fun b => containsSub (toLowerStr b) (toLowerStr link)) = true
  · rw [if_pos h1]
  · rw [if_neg h1]
    by_cases h2 : (r && !(containsSub (toLowerStr st.company) (toLowerStr link))) = true
    · rw [if_pos h2]
    · rw [if_neg h2, if_pos hany]

/-- Candidate URL whose host label at index 1 is `zorg` and whose text
contains `acme`. -/
def uA : Str := "https://www.zorg.com/acme1.pdf".toList

/-- Candidate URL on the same host whose text does not contain `acme`. -/
def uB : Str := "https://www.zorg.com/other.pdf".toList

/-- Candidate URL with a four-label host, where the second label from
the left (`cdn`) differs from the second-to-last label (`example`). -/
def u4 : Str := "https://www.cdn.example.org/r.pdf".toList

/-- The caller-supplied search target of the concrete scenarios. -/
def acmeS : Str := "acme".toList

/-- Concrete search keywords. -/
def kwS : Str := "kw".toList

/-- Concrete period label. -/
def y2023 : Str := "2023".toList

/-- Concrete environment: one result page with two candidates, every
fetch succeeding with no Content-Disposition header, empty stored
ledger. -/
def cEnvA : Env where
  search := fun _ s => if s = 1 then some [uA, uB] else some []
  fetch := fun _ => some []
  metadata0 := []

/-- Concrete environment: one result page with one candidate, every
fetch failing, empty stored ledger. -/
def cEnvB : Env where
  search := fun _ s => if s = 1 then some [uA] else some []
  fetch := fun _ => none
  metadata0 := []

/-- Ledger row the cEnvA run appends for `uA`. -/
def rowA : Row := ⟨"zorg".toList, y2023, uA, "acme1.pdf".toList⟩

/-- Ledger row the cEnvA run appends for `uB`. -/
def rowB : Row := ⟨"zorg".toList, y2023, uB, "other.pdf".toList⟩

/-- C1: a candidate whose url is already present in the url column of the
in-memory ledger is skipped — no fetch event, no state change — and a
run started on a ledger with a duplicate-free url column keeps that
column duplicate-free in every persisted snapshot and in the final
in-memory ledger, so the ledger never gains a duplicate url within one
run. -/
theorem C1_dedup_skip_no_duplicates :
    (∀ env bl r y st link, link ∈ urlsOf st.metadata →
      process_item env bl r y st link = ([], Except.ok st))
    ∧ (∀ env company kw years bl r md, (urlsOf md).Nodup →
        (∀ rows, Event.saveMetadata rows ∈
            (search_and_download env company kw years bl r md).1 →
          (urlsOf rows).Nodup)
        ∧ (∀ st', (search_and_download env company kw years bl r md).2 =
              Except.ok st' →
            (urlsOf st'.metadata).Nodup)) := by
  refine ⟨process_item_skip_dup, ?_⟩
  intro env company kw years bl r md hnd
  exact search_years_loop_facts env kw bl r years ⟨company, md⟩ hnd

/-- Witness for C1 at a concrete ledger and run. -/
theorem C1_dedup_skip_no_duplicates_witness :
    (uA ∈ urlsOf [rowA]
      ∧ process_item cEnvA [] false y2023 ⟨acmeS, [rowA]⟩ uA =
          ([], Except.ok ⟨acmeS, [rowA]⟩))
    ∧ ((urlsOf ([] : List Row)).Nodup
      ∧ ∀ rows, Event.saveMetadata rows ∈
          (search_and_download cEnvA acmeS kwS [y2023] [] true []).1 →
        (urlsOf rows).Nodup) :=
  ⟨⟨by decide,
    C1_dedup_skip_no_duplicates.1 cEnvA [] false y2023 ⟨acmeS, [rowA]⟩ uA (by decide)⟩,
   ⟨List.nodup_nil,
    (C1_dedup_skip_no_duplicates.2 cEnvA acmeS kwS [y2023] [] true [] List.nodup_nil).1⟩⟩

/-- C4: evidence that no cancellation exists — `app.py` passes a
`stop_event` keyword argument that `find_and_download_pdfs` does not
accept, so the app's call cannot even bind (Python raises `TypeError`),
and the downloader has no cancel parameter to poll. -/
theorem C4_stop_event_not_accepted :
    bindOk find_and_download_pdfs_params app_start_download_kwargs = false
    ∧ "stop_event" ∈ app_start_download_kwargs
    ∧ "stop_event" ∉ find_and_download_pdfs_params := by decide

/-- C8 (amended): invoked with neither a CSV nor a company name, the run
reports the configuration error after exactly one remote-store call (the
metadata-ledger load), makes no search or fetch call, and returns
normally — fatal to the run, not to the process. -/
theorem C8_config_error_after_metadata_load (env : Env) (kw : Str)
    (years bl : List Str) (r : Bool) :
    find_and_download_pdfs env none [] kw years bl r =
      ([Event.loadMetadata], Except.ok ()) := rfl

/-- C8 counterexample: in the neither-input run the trace does contain a
remote-store call (the metadata load of `pdf_downloader.py` line 41),
contradicting the claim that the error precedes any remote-store call. -/
theorem C8_counterexample :
    (find_and_download_pdfs cEnvA none [] kwS [y2023] [] false).1 =
      [Event.loadMetadata]
    ∧ isRemoteStoreEvent Event.loadMetadata = true
    ∧ resErr (find_and_download_pdfs cEnvA none [] kwS [y2023] [] false).2 =
        none := by decide

/-- Ledger effect of one accepted or skipped candidate: a failed fetch
leaves the in-memory ledger unchanged, at most one row is appended, and
a successful fetch of an accepted candidate appends exactly the row
built from the derived label, the year, the url and the resolved
filename. -/
theorem process_item_metadata_facts (env : Env) (bl : List Str) (r : Bool)
    (y : Str) (st : LoopState) (link : Str) (st' : LoopState)
    (hok : (process_item env bl r y st link).2 = Except.ok st') :
    (env.fetch link = none → st'.metadata = st.metadata)
    ∧ st'.metadata.length ≤ st.metadata.length + 1
    ∧ (∀ cd lab, env.fetch link = some cd → host_label_1 link = some lab →
        Event.fetchAttempt link ∈ (process_item env bl r y st link).1 →
        st'.metadata = st.metadata ++
          [Row.mk lab y link (extract_original_filename cd link)]) := by
  rcases process_item_cases env bl r y st link with h | h | ⟨lab0, hh, hany, h⟩
  · rw [h] at hok
    have hst : st = st' := by simpa using hok
    subst hst
    refine ⟨fun _ => rfl, by omega, ?_⟩
    intro cd lab _ _ hmem
    rw [h] at hmem
    simp at hmem
  · rw [h] at hok
    simp at hok
  · rw [h] at hok
    have hst : (⟨lab0,
        match (download_pdf_to_dropbox env link lab0 y).1 with
        | some fn => st.metadata ++ [Row.mk lab0 y link fn]
        | none => st.metadata⟩ : LoopState) = st' := by simpa using hok
    subst hst
    cases hd : (download_pdf_to_dropbox env link lab0 y).1 with
    | none =>
      refine ⟨?_, ?_, ?_⟩
      · intro _
        simp only [hd]
      · simp only [hd]
        omega
      · intro cd lab hf _ _
        rw [show download_pdf_to_dropbox env link lab0 y =
            (some (extract_original_filename cd link),
             [Event.fetchAttempt link,
              Event.upload (dropbox_pdf_path lab0
                (extract_original_filename cd link))]) from by
          simp [download_pdf_to_dropbox, hf]] at hd
        simp at hd
    | some fn =>
      have hfn : ∀ cd, env.fetch link = some cd →
          fn = extract_original_filename cd link := by
        intro cd hf
        rw [show download_pdf_to_dropbox env link lab0 y =
            (some (extract_original_filename cd link),
             [Event.fetchAttempt link,
              Event.upload (dropbox_pdf_path lab0
                (extract_original_filename cd link))]) from by
          simp [download_pdf_to_dropbox, hf]] at hd
        simpa using hd.symm
      refine ⟨?_, ?_, ?_⟩
      · intro hf
        rw [show download_pdf_to_dropbox env link lab0 y =
            (none, [Event.fetchAttempt link]) from by
          simp [download_pdf_to_dropbox, hf]] at hd
        simp at hd
      · simp only [hd]
        simp
      · intro cd lab hf hll _
        have hlab : lab0 = lab := by
          rw [hh] at hll
          simpa using hll
        subst hlab
        simp only [hd]
        rw [hfn cd hf]

/-- C3 (amended): the ledger is persisted once per period — a
successfully completed period's trace holds exactly one save event, at
the very end, carrying the final in-memory ledger — while an individual
candidate persists nothing; a row is appended only on a successful
fetch (a failed fetch appends nothing), and at most one row per
candidate. -/
theorem C3_per_period_persistence :
    (∀ env kw bl r st y st',
      (process_year env kw bl r st y).2 = Except.ok st' →
      countSaves (process_year env kw bl r st y).1 = 1
      ∧ (process_year env kw bl r st y).1.getLast? =
          some (Event.saveMetadata st'.metadata))
    ∧ (∀ env bl r y st link st',
        (process_item env bl r y st link).2 = Except.ok st' →
        countSaves (process_item env bl r y st link).1 = 0
        ∧ (env.fetch link = none → st'.metadata = st.metadata)
        ∧ st'.metadata.length ≤ st.metadata.length + 1) := by
  refine ⟨?_, ?_⟩
  · intro env kw bl r st y st' hok
    exact (process_year_facts env kw bl r st y).1 st' hok
  · intro env bl r y st link st' hok
    have hm := process_item_metadata_facts env bl r y st link st' hok
    exact ⟨process_item_nosave env bl r y st link, hm.1, hm.2.1⟩

/-- Decidable equality for `Except` results, so that concrete runs can
be checked by `decide`. -/
instance {ε α : Type} [DecidableEq ε] [DecidableEq α] :
    DecidableEq (Except ε α) := fun x y =>
  match x, y with
  | Except.ok a, Except.ok b =>
    if h : a = b then isTrue (by rw [h])
    else isFalse (fun he => by cases he; exact h rfl)
  | Except.error e, Except.error f =>
    if h : e = f then isTrue (by rw [h])
    else isFalse (fun he => by cases he; exact h rfl)
  | Except.ok _, Except.error _ => isFalse (fun he => by cases he)
  | Except.error _, Except.ok _ => isFalse (fun he => by cases he)

/-- Witness for C3 (amended) at a concrete period run. -/
theorem C3_per_period_persistence_witness :
    (process_year cEnvA kwS [] true ⟨acmeS, []⟩ y2023).2 =
      Except.ok ⟨"zorg".toList, [rowA, rowB]⟩
    ∧ countSaves (process_year cEnvA kwS [] true ⟨acmeS, []⟩ y2023).1 = 1 :=
  ⟨by decide,
   (C3_per_period_persistence.1 cEnvA kwS [] true ⟨acmeS, []⟩ y2023
     ⟨"zorg".toList, [rowA, rowB]⟩ (by decide)).1⟩

/-- C3 counterexample: a run that processes two candidates (four fetch
attempts, two appended rows) persists the ledger exactly once, so
persistence is per period, not after every fetch attempt. -/
theorem C3_counterexample :
    countSaves (search_and_download cEnvA acmeS kwS [y2023] [] true []).1 = 1
    ∧ List.count (Event.fetchAttempt uA)
        (search_and_download cEnvA acmeS kwS [y2023] [] true []).1 = 2
    ∧ List.count (Event.fetchAttempt uB)
        (search_and_download cEnvA acmeS kwS [y2023] [] true []).1 = 2
    ∧ resState (search_and_download cEnvA acmeS kwS [y2023] [] true []).2 =
        some ⟨"zorg".toList, [rowA, rowB]⟩ := by decide

/-- C5 (amended): a failed fetch leaves the in-memory ledger unchanged —
no row records the failure (the row type has no status column) — and a
successful fetch of an accepted candidate appends exactly one row with
company, year, url and resolved filename. -/
theorem C5_failed_fetch_leaves_no_row (env : Env) (bl : List Str) (r : Bool)
    (y : Str) (st : LoopState) (link : Str) (st' : LoopState)
    (hok : (process_item env bl r y st link).2 = Except.ok st') :
    (env.fetch link = none → st'.metadata = st.metadata)
    ∧ (∀ cd lab, env.fetch link = some cd → host_label_1 link = some lab →
        Event.fetchAttempt link ∈ (process_item env bl r y st link).1 →
        st'.metadata = st.metadata ++
          [Row.mk lab y link (extract_original_filename cd link)]) := by
  have hm := process_item_metadata_facts env bl r y st link st' hok
  exact ⟨hm.1, hm.2.2⟩

/-- Witness for C5 (amended) at a concrete failing fetch. -/
theorem C5_failed_fetch_leaves_no_row_witness :
    (process_item cEnvB [] false y2023 ⟨acmeS, []⟩ uA).2 =
      Except.ok ⟨"zorg".toList, []⟩
    ∧ (cEnvB.fetch uA = none →
        (⟨"zorg".toList, []⟩ : LoopState).metadata = (⟨acmeS, []⟩ : LoopState).metadata) :=
  ⟨by decide,
   (C5_failed_fetch_leaves_no_row cEnvB [] false y2023 ⟨acmeS, []⟩ uA
     ⟨"zorg".toList, []⟩ (by decide)).1⟩

/-- C5 counterexample: a run makes a fetch attempt on `uA` that fails,
yet the final ledger is empty — the failed attempt produced no ledger
row (and rows carry no status field at all), contradicting the claim
that every fetch attempt produces a row whose status describes the
outcome. -/
theorem C5_counterexample :
    Event.fetchAttempt uA ∈
      (search_and_download cEnvB acmeS kwS [y2023] [] false []).1
    ∧ resState (search_and_download cEnvB acmeS kwS [y2023] [] false []).2 =
        some ⟨"zorg".toList, []⟩ := by decide

/-- C6 (amended): with `restrict_url` set, a candidate whose lowercase
URL does not contain the lowercase *current* `company` value is skipped
with no events and no ledger row; the current value equals the
caller-supplied target only until a candidate passes all filters, after
which it is the host-derived label of the last accepted candidate. -/
theorem C6_restriction_uses_current_company (env : Env) (bl : List Str)
    (y : Str) (st : LoopState) (link : Str)
    (h : containsSub (toLowerStr st.company) (toLowerStr link) = false) :
    process_item env bl true y st link = ([], Except.ok st) := by
  unfold process_item
  by_cases h1 : bl.any (fun b => containsSub (toLowerStr b) (toLowerStr link)) = true
  · rw [if_pos h1]
  · rw [if_neg h1, if_pos (by simp [h])]

/-- Witness for C6 (amended) at a concrete state and candidate. -/
theorem C6_restriction_uses_current_company_witness :
    containsSub (toLowerStr ("nope".toList)) (toLowerStr uA) = false
    ∧ process_item cEnvA [] true y2023 ⟨"nope".toList, []⟩ uA =
        ([], Except.ok ⟨"nope".toList, []⟩) :=
  ⟨by decide,
   C6_restriction_uses_current_company cEnvA [] y2023 ⟨"nope".toList, []⟩ uA
     (by decide)⟩

/-- C6 counterexample: with `restrict_url` set and target `acme`,
candidate `uB` lacks `acme` in its URL yet produces a ledger row — after
the first accepted candidate reassigned `company` to `zorg`, the
substring test compares against `zorg`, not the original target. -/
theorem C6_counterexample :
    containsSub (toLowerStr acmeS) (toLowerStr uB) = false
    ∧ resState (search_and_download cEnvA acmeS kwS [y2023] [] true []).2 =
        some ⟨"zorg".toList, [rowA, rowB]⟩
    ∧ rowB.url = uB := by decide

/-- C2 (amended): for an accepted candidate (non-empty item trace), the
state's recorded company — used for the appended rows and for every
upload path — is the label at index 1 of the URL host split on `.`,
which coincides with the spec's second-to-last label exactly when the
host has three labels. -/
theorem C2_effective_label_is_second_from_left (env : Env) (bl : List Str)
    (r : Bool) (y : Str) (st : LoopState) (link : Str) (st' : LoopState)
    (hok : (process_item env bl r y st link).2 = Except.ok st')
    (hne : (process_item env bl r y st link).1 ≠ []) :
    host_label_1 link = some st'.company
    ∧ (∀ row ∈ st'.metadata, row ∉ st.metadata → row.company = st'.company)
    ∧ (∀ p, Event.upload p ∈ (process_item env bl r y st link).1 →
        ∃ fn, p = dropbox_pdf_path st'.company fn)
    ∧ ((splitOn (".".toList) (netlocOf link)).length = 3 →
        spec_second_to_last_label link = host_label_1 link) := by
  have hlen3 : (splitOn (".".toList) (netlocOf link)).length = 3 →
      spec_second_to_last_label link = host_label_1 link := by
    intro hlen
    rw [spec_second_to_last_label, host_label_1, hlen]
  rcases process_item_cases env bl r y st link with h | h | ⟨lab0, hh, hany, h⟩
  · rw [h] at hne
    simp at hne
  · rw [h] at hok
    simp at hok
  · rw [h] at hok
    have hst : (⟨lab0,
        match (download_pdf_to_dropbox env link lab0 y).1 with
        | some fn => st.metadata ++ [Row.mk lab0 y link fn]
        | none => st.metadata⟩ : LoopState) = st' := by simpa using hok
    subst hst
    refine ⟨hh, ?_, ?_, hlen3⟩
    · intro row hrow hnotin
      cases hd : (download_pdf_to_dropbox env link lab0 y).1 with
      | none =>
        simp only [hd] at hrow
        exact absurd hrow hnotin
      | some fn =>
        simp only [hd] at hrow
        rcases List.mem_append.mp hrow with hl | hr
        · exact absurd hl hnotin
        · have : row = Row.mk lab0 y link fn := by simpa using hr
          rw [this]
    · intro p hp
      rw [h] at hp
      have hmem : Event.upload p ∈ (download_pdf_to_dropbox env link lab0 y).2 := by
        rcases List.mem_append.mp hp with hl | hr
        · exact hl
        · exact hr
      rw [download_trace] at hmem
      cases hf : env.fetch link with
      | none =>
        rw [hf] at hmem
        simp at hmem
      | some cd =>
        rw [hf] at hmem
        have : p = dropbox_pdf_path lab0 (extract_original_filename cd link) := by
          simpa using hmem
        exact ⟨extract_original_filename cd link, this⟩

/-- Witness for C2 (amended) at the four-label-host candidate. -/
theorem C2_effective_label_is_second_from_left_witness :
    (process_item cEnvA [] false y2023 ⟨acmeS, []⟩ u4).2 =
      Except.ok ⟨"cdn".toList, [Row.mk ("cdn".toList) y2023 u4 ("r.pdf".toList)]⟩
    ∧ (process_item cEnvA [] false y2023 ⟨acmeS, []⟩ u4).1 ≠ []
    ∧ host_label_1 u4 = some ("cdn".toList) :=
  ⟨by decide, by decide,
   (C2_effective_label_is_second_from_left cEnvA [] false y2023 ⟨acmeS, []⟩ u4
     ⟨"cdn".toList, [Row.mk ("cdn".toList) y2023 u4 ("r.pdf".toList)]⟩
     (by decide) (by decide)).1⟩

/-- C2 counterexample: for the host `www.cdn.example.org` the recorded
target label is `cdn` (the label at index 1), while the claim's
second-to-last label is `example`. -/
theorem C2_counterexample :
    resState (process_item cEnvA [] false y2023 ⟨acmeS, []⟩ u4).2 =
      some ⟨"cdn".toList, [Row.mk ("cdn".toList) y2023 u4 ("r.pdf".toList)]⟩
    ∧ spec_second_to_last_label u4 = some ("example".toList)
    ∧ ("cdn".toList : Str) ≠ "example".toList := by decide

/-- C10: an accepted candidate (all filters pass, host label resolvable)
is processed by two identical `_download_pdf_to_dropbox` calls — the
trace is the download trace twice, so the fetch attempt appears twice
and, when the fetch succeeds, so does the upload — while only the first
call's returned filename feeds the appended ledger row. -/
theorem C10_double_download (env : Env) (bl : List Str) (r : Bool) (y : Str)
    (st : LoopState) (link : Str) (lab : Str)
    (h1 : bl.any (fun b => containsSub (toLowerStr b) (toLowerStr link)) = false)
    (h2 : (r && !(containsSub (toLowerStr st.company) (toLowerStr link))) = false)
    (h3 : st.metadata.any (fun row => decide (row.url = link)) = false)
    (h4 : host_label_1 link = some lab) :
    process_item env bl r y st link =
      ((download_pdf_to_dropbox env link lab y).2 ++
         (download_pdf_to_dropbox env link lab y).2,
       Except.ok ⟨lab,
         match (download_pdf_to_dropbox env link lab y).1 with
         | some fn => st.metadata ++ [Row.mk lab y link fn]
         | none => st.metadata⟩)
    ∧ List.count (Event.fetchAttempt link) (process_item env bl r y st link).1 = 2
    ∧ (∀ cd, env.fetch link = some cd →
        List.count
          (Event.upload (dropbox_pdf_path lab (extract_original_filename cd link)))
          (process_item env bl r y st link).1 = 2) := by
  have heq : process_item env bl r y st link =
      ((download_pdf_to_dropbox env link lab y).2 ++
         (download_pdf_to_dropbox env link lab y).2,
       Except.ok ⟨lab,
         match (download_pdf_to_dropbox env link lab y).1 with
         | some fn => st.metadata ++ [Row.mk lab y link fn]
         | none => st.metadata⟩) := by
    unfold process_item
    rw [if_neg (by simp [h1]), if_neg (by simp [h2]), if_neg (by simp [h3]), h4]
  refine ⟨heq, ?_, ?_⟩
  · rw [heq]
    show List.count (Event.fetchAttempt link)
      ((download_pdf_to_dropbox env link lab y).2 ++
        (download_pdf_to_dropbox env link lab y).2) = 2
    rw [List.count_append, download_trace]
    cases hf : env.fetch link <;> simp
  · intro cd hf
    rw [heq]
    show List.count
      (Event.upload (dropbox_pdf_path lab (extract_original_filename cd link)))
      ((download_pdf_to_dropbox env link lab y).2 ++
        (download_pdf_to_dropbox env link lab y).2) = 2
    rw [List.count_append, download_trace, hf]
    simp

/-- Witness for C10 at a concrete accepted candidate. -/
theorem C10_double_download_witness :
    host_label_1 uA = some ("zorg".toList)
    ∧ List.count (Event.fetchAttempt uA)
        (process_item cEnvA [] false y2023 ⟨acmeS, []⟩ uA).1 = 2 :=
  ⟨by decide,
   (C10_double_download cEnvA [] false y2023 ⟨acmeS, []⟩ uA ("zorg".toList)
     (by decide) (by decide) (by decide) (by decide)).2.1⟩

/-- The batch loop raises `TypeError` at the first non-blank company
name, because the call site omits the required `metadata_df` argument. -/
theorem batch_rows_loop_typeError (env : Env) (kw : Str) (years bl : List Str)
    (r : Bool) :
    ∀ rows : List Str, rows.any (fun n => !(pyStripWS n).isEmpty) = true →
      batch_rows_loop env kw years bl r rows =
        ([], Except.error PyError.typeError) := by
  intro rows
  induction rows with
  | nil => intro h; simp at h
  | cons name rest ih =>
    intro h
    by_cases he : (pyStripWS name).isEmpty = true
    · have hrest : rest.any (fun n => !(pyStripWS n).isEmpty) = true := by
        simp only [List.any_cons, Bool.or_eq_true] at h
        rcases h with h | h
        · rw [he] at h
          simp at h
        · exact h
      simp only [batch_rows_loop]
      rw [if_pos he]
      exact ih hrest
    · simp only [batch_rows_loop]
      rw [if_neg he, if_neg (by decide)]

/-- C9: in batch (CSV) mode with at least one non-blank company name,
the run stops with a missing-argument `TypeError` — the batch call site
omits the required `metadata_df` parameter of `_search_and_download` —
and the trace holds only the initial metadata load: no search or fetch
happens. -/
theorem C9_batch_calls_raise_typeError (env : Env) (rows : List Str)
    (cn kw : Str) (years bl : List Str) (r : Bool)
    (h : rows.any (fun n => !(pyStripWS n).isEmpty) = true) :
    find_and_download_pdfs env (some rows) cn kw years bl r =
      ([Event.loadMetadata], Except.error PyError.typeError)
    ∧ "metadata_df" ∈ search_and_download_params
    ∧ "metadata_df" ∉ batch_call_kwargs := by
  refine ⟨?_, by decide, by decide⟩
  show consTrace Event.loadMetadata
      (batch_rows_loop env kw years bl r rows) = _
  rw [batch_rows_loop_typeError env kw years bl r rows h]
  rfl

/-- Witness for C9 at a one-company CSV. -/
theorem C9_batch_calls_raise_typeError_witness :
    ([("Acme".toList : Str)].any (fun n => !(pyStripWS n).isEmpty) = true)
    ∧ find_and_download_pdfs cEnvA (some [("Acme".toList : Str)]) [] kwS
        [y2023] [] false =
      ([Event.loadMetadata], Except.error PyError.typeError) :=
  ⟨by decide,
   (C9_batch_calls_raise_typeError cEnvA [("Acme".toList : Str)] [] kwS
     [y2023] [] false (by decide)).1⟩
